import Mathlib

/-!
Verification of the ArchiveTune-Nightly utility scripts.

The repository holds three small Python scripts:
* `scripts/escape-changelog.py` — escape changelog text for Telegram
  MarkdownV2, truncate to 3500 characters, replace newlines by `%0A`;
* `scripts/escape-markdown.py` — escape message text for Telegram
  MarkdownV2 and URL-encode it with `urllib.parse.quote`;
* `sync_readme.py` — copy a README and substitute a placeholder line
  with remotely fetched content.

Strings are embedded as `List Char` (Python strings are sequences of
Unicode code points).  `str.replace` with a one-character search string
is per-character substitution; the general (multi-character) form used
by `sync_readme.py` is embedded separately as `strReplace`.
-/

namespace ArchiveTune

/-- Python `text.replace(c, r)` where the search string `c` is a single
character: every occurrence of `c` in `s` is replaced by `r`, all other
characters are kept. -/
def pyReplaceChar (s : List Char) (c : Char) (r : List Char) : List Char :=
  s.flatMap (fun x => if x = c then r else [x])

/-- The `special_chars` list of `escape_markdown_v2` (both scripts use the
same 19 characters in the same order, backslash first). -/
def special_chars : List Char :=
  ['\\', '_', '*', '[', ']', '(', ')', '~', '\x60', '>', '#', '+', '-',
   '=', '|', '\x7b', '\x7d', '.', '!']

/-- `escape_markdown_v2` from both escaper scripts: for each character of
`special_chars` in order, replace it everywhere in the text by a backslash
followed by that character. -/
def escape_markdown_v2 (text : List Char) : List Char :=
  special_chars.foldl (fun t c => pyReplaceChar t c ['\\', c]) text

/-- One character's image under the escaping rule stated by the spec:
a reserved character gains exactly one preceding backslash, any other
character is kept unchanged. -/
def escapeChar (c : Char) : List Char :=
  if c ∈ special_chars then ['\\', c] else [c]

/-- The spec's description of the escaper as a single left-to-right pass:
insert one backslash before every reserved character of the original
text.  Used as the specification `escape_markdown_v2` is proved equal to. -/
def escapeSpec (s : List Char) : List Char :=
  s.flatMap escapeChar

/- ---------------------------------------------------------------- -/
/- scripts/escape-changelog.py                                      -/
/- ---------------------------------------------------------------- -/

/-- The try-block body of `main` in `scripts/escape-changelog.py` applied
to the file's text: truncate to the first 3500 characters, escape for
MarkdownV2, then replace each newline by the literal `%0A`. -/
def changelog_pipeline (text : List Char) : List Char :=
  pyReplaceChar (escape_markdown_v2 (text.take 3500)) '\n' ['%', '0', 'A']

/-- Outcome of one process run: standard output, standard error and the
exit status. -/
structure ProcResult where
  out : List Char
  err : List Char
  code : Nat
  deriving DecidableEq, Repr

/-- `main` of `scripts/escape-changelog.py`.  The read of
`/tmp/changelog.txt` is the one fallible step and is passed in as an
`Except` (error carries the exception message `str(e)`): on success the
transformed text is printed (with `print`'s trailing newline) and the
process exits normally; on an exception `Error: <message>` is printed to
standard error and the exit status is 1. -/
def changelog_main (readResult : Except (List Char) (List Char)) : ProcResult :=
  match readResult with
  | .ok text =>
      { out := changelog_pipeline text ++ ['\n'], err := [], code := 0 }
  | .error e =>
      { out := [], err := ("Error: ".data ++ e ++ ['\n']), code := 1 }

/- ---------------------------------------------------------------- -/
/- scripts/escape-markdown.py                                       -/
/- ---------------------------------------------------------------- -/

/-- UTF-8 encoding of one code point as its byte values. -/
def utf8Encode (c : Char) : List Nat :=
  if c.toNat < 0x80 then [c.toNat]
  else if c.toNat < 0x800 then
    [0xC0 + c.toNat / 64, 0x80 + c.toNat % 64]
  else if c.toNat < 0x10000 then
    [0xE0 + c.toNat / 4096, 0x80 + (c.toNat / 64) % 64, 0x80 + c.toNat % 64]
  else
    [0xF0 + c.toNat / 262144, 0x80 + (c.toNat / 4096) % 64,
     0x80 + (c.toNat / 64) % 64, 0x80 + c.toNat % 64]

/-- An uppercase hexadecimal digit, as `urllib.parse.quote` prints them. -/
def hexDigitUpper (n : Nat) : Char :=
  Char.ofNat (if n < 10 then 48 + n else 55 + n)

/-- The bytes `urllib.parse.quote` never encodes regardless of `safe`:
ASCII letters, digits, and `_ . - ~`. -/
def alwaysSafeByte (b : Nat) : Bool :=
  (65 ≤ b && b ≤ 90) || (97 ≤ b && b ≤ 122) || (48 ≤ b && b ≤ 57)
    || b == 95 || b == 46 || b == 45 || b == 126

/-- One byte's image under `urllib.parse.quote` with the default
`safe` string, which is the slash (byte 47): safe bytes stay themselves,
everything else becomes `%XX` with uppercase hex digits. -/
def quoteByte (b : Nat) : List Char :=
  if alwaysSafeByte b || b == 47 then [Char.ofNat b]
  else ['%', hexDigitUpper (b / 16), hexDigitUpper (b % 16)]

/-- `urllib.parse.quote(s)` with its default arguments, as called by
`scripts/escape-markdown.py`: UTF-8 encode the string and percent-encode
every byte outside the safe set. -/
def urlquote (s : List Char) : List Char :=
  (s.flatMap utf8Encode).flatMap quoteByte

/-- The try-block body of `main` in `scripts/escape-markdown.py`: escape
for MarkdownV2, then URL-encode. -/
def message_pipeline (text : List Char) : List Char :=
  urlquote (escape_markdown_v2 text)

/-- `main` of `scripts/escape-markdown.py`, with the read of
`/tmp/message.txt` passed in as an `Except`, as for `changelog_main`. -/
def message_main (readResult : Except (List Char) (List Char)) : ProcResult :=
  match readResult with
  | .ok text =>
      { out := message_pipeline text ++ ['\n'], err := [], code := 0 }
  | .error e =>
      { out := [], err := ("Error: ".data ++ e ++ ['\n']), code := 1 }

/-- The reserved characters of a URL (RFC 3986 gen-delims and
sub-delims), used to state what a full percent-encoding pass would have
to encode. -/
def rfc3986Reserved : List Char :=
  [':', '/', '?', '#', '[', ']', '@', '!', '$', '&', '\x27', '(', ')',
   '*', '+', ',', ';', '=']

/- ---------------------------------------------------------------- -/
/- sync_readme.py                                                   -/
/- ---------------------------------------------------------------- -/

/-- Python `s.replace(old, new)` for a non-empty search string `old`
(as `sync_readme.py` uses it): scan left to right and replace every
non-overlapping occurrence of `old` by `new`. -/
def strReplace (old new : List Char) : List Char → List Char
  | [] => []
  | c :: rest =>
    if h : old ≠ [] ∧ (c :: rest).take old.length = old then
      new ++ strReplace old new ((c :: rest).drop old.length)
    else
      c :: strReplace old new rest
termination_by s => s.length
decreasing_by
  · have hlen : 0 < old.length := List.length_pos.mpr h.1
    simp only [List.length_drop, List.length_cons]
    omega
  · simp only [List.length_cons]
    omega

/-- The fixed placeholder string of `sync_readme.py`. -/
def placeholder : List Char :=
  ("Sync README.md content from https://github.com/koiverse/ArchiveTune raw.").data

/-- `new_content` of `sync_readme.py`:
`content.replace(placeholder, raw_content)`. -/
def new_content (content raw_content : List Char) : List Char :=
  strReplace placeholder raw_content content

/- ---------------------------------------------------------------- -/
/- lemmas about escape_markdown_v2                                  -/
/- ---------------------------------------------------------------- -/

lemma pyReplaceChar_append (a b : List Char) (c : Char) (r : List Char) :
    pyReplaceChar (a ++ b) c r = pyReplaceChar a c r ++ pyReplaceChar b c r := by
  simp [pyReplaceChar]

lemma pyReplaceChar_of_not_mem {s : List Char} {c : Char} (r : List Char)
    (h : c ∉ s) : pyReplaceChar s c r = s := by
  induction s with
  | nil => rfl
  | cons x xs ih =>
    simp only [List.mem_cons, not_or] at h
    simp [pyReplaceChar, List.flatMap_cons, Ne.symm h.1] at ih ⊢
    exact ih h.2

lemma foldl_step_append (L : List Char) (a b : List Char) :
    L.foldl (fun t c => pyReplaceChar t c ['\\', c]) (a ++ b)
      = L.foldl (fun t c => pyReplaceChar t c ['\\', c]) a
        ++ L.foldl (fun t c => pyReplaceChar t c ['\\', c]) b := by
  induction L generalizing a b with
  | nil => rfl
  | cons c L ih =>
    simp only [List.foldl_cons, pyReplaceChar_append]
    exact ih _ _

lemma foldl_step_of_disjoint (L : List Char) (t : List Char)
    (h : ∀ x ∈ t, x ∉ L) :
    L.foldl (fun t c => pyReplaceChar t c ['\\', c]) t = t := by
  induction L with
  | nil => rfl
  | cons c L ih =>
    have hc : c ∉ t := fun hmem => (h c hmem) (List.mem_cons_self c L)
    simp only [List.foldl_cons, pyReplaceChar_of_not_mem _ hc]
    exact ih fun x hx => fun hxL => (h x hx) (List.mem_cons_of_mem c hxL)

/-- escaping distributes over concatenation. -/
lemma escape_append (a b : List Char) :
    escape_markdown_v2 (a ++ b) = escape_markdown_v2 a ++ escape_markdown_v2 b :=
  foldl_step_append special_chars a b

lemma escape_nil : escape_markdown_v2 [] = [] := rfl

/-- on a single character the sequential replaces agree with the
one-character escaping rule. -/
lemma escape_single (c : Char) : escape_markdown_v2 [c] = escapeChar c := by
  by_cases h : c ∈ special_chars
  · fin_cases h <;> rfl
  · have : escape_markdown_v2 [c] = [c] := by
      apply foldl_step_of_disjoint
      intro x hx
      simp only [List.mem_singleton] at hx
      subst hx
      exact h
    rw [this, escapeChar, if_neg h]

/-- the sequential 19-pass replacement equals the single-pass escaping
specification: each original character is escaped once, nothing else
changes, and backslashes inserted by the algorithm are never re-escaped. -/
theorem escape_eq_escapeSpec (s : List Char) :
    escape_markdown_v2 s = escapeSpec s := by
  induction s with
  | nil => rfl
  | cons c s ih =>
    have : (c :: s) = [c] ++ s := rfl
    rw [this, escape_append, escape_single, ih]
    simp [escapeSpec, List.flatMap_cons]

/-- the length of the escaped text: original length plus one per reserved
character occurrence. -/
lemma escapeSpec_length (s : List Char) :
    (escapeSpec s).length
      = s.length + s.countP (fun c => decide (c ∈ special_chars)) := by
  induction s with
  | nil => rfl
  | cons c s ih =>
    simp only [escapeSpec, List.flatMap_cons, List.length_append,
      List.countP_cons] at ih ⊢
    by_cases h : c ∈ special_chars
    · simp [escapeChar, h, ih]
      omega
    · simp [escapeChar, h, ih]
      omega

/- ---------------------------------------------------------------- -/
/- helper lemmas                                                    -/
/- ---------------------------------------------------------------- -/

lemma escapeSpec_of_reserved_free {s : List Char}
    (h : ∀ c ∈ s, c ∉ special_chars) : escapeSpec s = s := by
  induction s with
  | nil => rfl
  | cons c s ih =>
    have hc : c ∉ special_chars := h c (List.mem_cons_self c s)
    simp only [escapeSpec, List.flatMap_cons, escapeChar, if_neg hc]
    simp only [List.singleton_append, List.cons.injEq, true_and]
    exact ih fun x hx => h x (List.mem_cons_of_mem c hx)

lemma utf8Encode_lt_256 (c : Char) : ∀ b ∈ utf8Encode c, b < 256 := by
  have hval : c.toNat < 1114112 := by
    rcases c.valid with h | h
    · have : c.toNat < 55296 := h
      omega
    · exact h.2
  intro b hb
  simp only [utf8Encode] at hb
  split_ifs at hb <;>
    simp only [List.mem_cons, List.mem_singleton, List.not_mem_nil,
      or_false] at hb <;>
    omega

set_option maxRecDepth 4000 in
lemma quoteByte_no_backslash_newline :
    ∀ b < 256, '\\' ∉ quoteByte b ∧ '\n' ∉ quoteByte b := by decide

lemma urlquote_no_backslash_newline (s : List Char) :
    '\\' ∉ urlquote s ∧ '\n' ∉ urlquote s := by
  constructor <;>
  · intro hmem
    rw [urlquote, List.mem_flatMap] at hmem
    obtain ⟨b, hb, hcb⟩ := hmem
    rw [List.mem_flatMap] at hb
    obtain ⟨c, _, hbc⟩ := hb
    have h256 := utf8Encode_lt_256 c b hbc
    have := quoteByte_no_backslash_newline b h256
    first
      | exact this.1 hcb
      | exact this.2 hcb

lemma strReplace_nil (old new : List Char) : strReplace old new [] = [] := by
  rw [strReplace]

lemma strReplace_leading_occ (old new t : List Char) (h : old ≠ []) :
    strReplace old new (old ++ t) = new ++ strReplace old new t := by
  match old with
  | [] => exact absurd rfl h
  | c :: o =>
    have hcons : (c :: o) ++ t = c :: (o ++ t) := rfl
    rw [hcons, strReplace]
    have htake : (c :: (o ++ t)).take (c :: o).length = c :: o := by
      rw [← hcons]
      exact List.take_left (c :: o) t
    have hdrop : (c :: (o ++ t)).drop (c :: o).length = t := by
      rw [← hcons]
      exact List.drop_left (c :: o) t
    rw [dif_pos ⟨h, htake⟩, hdrop]

lemma strReplace_of_no_occurrence (old new : List Char) :
    ∀ n (s : List Char), s.length ≤ n → (∀ a b, s ≠ a ++ old ++ b) →
      strReplace old new s = s := by
  intro n
  induction n with
  | zero =>
    intro s hs _
    have : s = [] := List.length_eq_zero.mp (Nat.le_zero.mp hs)
    subst this
    exact strReplace_nil old new
  | succ n ih =>
    intro s hs h
    match s with
    | [] => exact strReplace_nil old new
    | c :: rest =>
      rw [strReplace]
      have hcond : ¬(old ≠ [] ∧ (c :: rest).take old.length = old) := by
        rintro ⟨-, htake⟩
        have hsplit : c :: rest = old ++ (c :: rest).drop old.length := by
          conv_lhs => rw [← List.take_append_drop old.length (c :: rest)]
          rw [htake]
        exact h [] ((c :: rest).drop old.length) (by simpa using hsplit)
      rw [dif_neg hcond]
      have hlen : rest.length ≤ n := by
        simp only [List.length_cons] at hs
        omega
      rw [ih rest hlen fun a b hab => h (c :: a) b (by rw [hab]; simp)]

lemma strReplace_self (old new : List Char) (h : old ≠ []) :
    strReplace old new old = new := by
  have hpre := strReplace_leading_occ old new [] h
  rw [List.append_nil] at hpre
  rw [hpre, strReplace_nil, List.append_nil]

/- ---------------------------------------------------------------- -/
/- the claims                                                       -/
/- ---------------------------------------------------------------- -/

/-- Claim C1: for every input string, `escape_markdown_v2` returns the
string in which every occurrence of each of the 19 reserved characters is
preceded by exactly one inserted backslash and no other character is
modified (it equals the single-pass specification `escapeSpec`); in
particular, on the one-character string of a reserved character `c` it
returns the two-character string backslash-then-`c`. -/
theorem C1_reserved_chars_each_escaped_once (s : List Char) (c : Char)
    (hc : c ∈ special_chars) :
    escape_markdown_v2 s = escapeSpec s
      ∧ escape_markdown_v2 [c] = ['\\', c] := by
  refine ⟨escape_eq_escapeSpec s, ?_⟩
  rw [escape_single, escapeChar, if_pos hc]

/-- Witness for C1 at the concrete input `"a_b"` with reserved
character `_`. -/
theorem C1_reserved_chars_each_escaped_once_witness :
    escape_markdown_v2 ("a_b".data) = escapeSpec ("a_b".data)
      ∧ escape_markdown_v2 ['_'] = ['\\', '_'] :=
  C1_reserved_chars_each_escaped_once ("a_b".data) '_' (by decide)

/-- Claim C2: `escape_markdown_v2` escapes the backslash first (it heads
the `special_chars` list), so the two-character input backslash-underscore
becomes the four-character string backslash, backslash, backslash,
underscore, and not the three-character string backslash, backslash,
underscore. -/
theorem C2_backslash_escaped_first :
    special_chars.head? = some '\\'
      ∧ escape_markdown_v2 ['\\', '_'] = ['\\', '\\', '\\', '_']
      ∧ escape_markdown_v2 ['\\', '_'] ≠ ['\\', '\\', '_'] := by
  decide

/-- Claim C3: `escape_markdown_v2` is the identity on every string that
contains no reserved character, and in particular maps the empty string
to the empty string. -/
theorem C3_identity_on_reserved_free (s : List Char)
    (h : ∀ c ∈ s, c ∉ special_chars) :
    escape_markdown_v2 s = s ∧ escape_markdown_v2 [] = [] :=
  ⟨(escape_eq_escapeSpec s).trans (escapeSpec_of_reserved_free h), rfl⟩

/-- Witness for C3 at the concrete reserved-character-free input
`"hello world"`. -/
theorem C3_identity_on_reserved_free_witness :
    escape_markdown_v2 ("hello world".data) = "hello world".data
      ∧ escape_markdown_v2 [] = [] :=
  C3_identity_on_reserved_free ("hello world".data) (by decide)

/-- Claim C4: `escape_markdown_v2` is idempotent exactly on strings free
of reserved characters: a second application changes nothing on a
reserved-free string, and changes the result whenever the input contains
at least one reserved character (the second pass escapes the backslashes
introduced by the first). -/
theorem C4_idempotent_iff_reserved_free (s : List Char) :
    ((∀ c ∈ s, c ∉ special_chars) →
      escape_markdown_v2 (escape_markdown_v2 s) = escape_markdown_v2 s)
      ∧ ((∃ c ∈ s, c ∈ special_chars) →
        escape_markdown_v2 (escape_markdown_v2 s) ≠ escape_markdown_v2 s) := by
  constructor
  · intro h
    have hid : escape_markdown_v2 s = s :=
      (escape_eq_escapeSpec s).trans (escapeSpec_of_reserved_free h)
    rw [hid, hid]
  · rintro ⟨c, hcs, hcr⟩ heq
    have hbs : '\\' ∈ escape_markdown_v2 s := by
      rw [escape_eq_escapeSpec, escapeSpec, List.mem_flatMap]
      exact ⟨c, hcs, by rw [escapeChar, if_pos hcr]; exact List.mem_cons_self _ _⟩
    have hpos :
        0 < (escape_markdown_v2 s).countP
              (fun c => decide (c ∈ special_chars)) :=
      List.countP_pos_iff.mpr ⟨'\\', hbs, by decide⟩
    have hlen :
        (escape_markdown_v2 (escape_markdown_v2 s)).length
          = (escape_markdown_v2 s).length
            + (escape_markdown_v2 s).countP
                (fun c => decide (c ∈ special_chars)) := by
      rw [escape_eq_escapeSpec (escape_markdown_v2 s), escapeSpec_length]
    rw [heq] at hlen
    omega

/-- Claim C5: the changelog variant truncates before escaping: for input
longer than 3500 characters the text handed to `escape_markdown_v2` is
exactly the first 3500 characters of the raw input (a prefix of length
3500), an input of at most 3500 characters is left unchanged by the
truncation, and the escaped result can exceed both 3500 and the 4096
transport limit (witnessed by 3500 dots escaping to length 7000). -/
theorem C5_truncate_before_escape (s : List Char) (h : 3500 < s.length) :
    (s.take 3500).length = 3500
      ∧ s.take 3500 ++ s.drop 3500 = s
      ∧ changelog_pipeline s
          = pyReplaceChar (escape_markdown_v2 (s.take 3500)) '\n' ['%', '0', 'A']
      ∧ (∀ t : List Char, t.length ≤ 3500 → t.take 3500 = t)
      ∧ 4096 < (escape_markdown_v2 ((List.replicate 3501 '.').take 3500)).length := by
  refine ⟨?_, List.take_append_drop 3500 s, rfl,
    fun t ht => List.take_of_length_le ht, ?_⟩
  · rw [List.length_take]
    omega
  · have htake : (List.replicate 3501 '.').take 3500 = List.replicate 3500 '.' := by
      rw [List.take_replicate]
      norm_num
    have hcount :
        (List.replicate 3500 '.').countP
            (fun c => decide (c ∈ special_chars))
          = (List.replicate 3500 '.').length :=
      List.countP_eq_length.mpr fun a ha => by
        rw [List.eq_of_mem_replicate ha]
        decide
    rw [htake, escape_eq_escapeSpec, escapeSpec_length, hcount,
      List.length_replicate]
    norm_num

/-- Witness for C5 at the concrete input of 3501 letters `x`. -/
theorem C5_truncate_before_escape_witness :
    3500 < (List.replicate 3501 'x').length
      ∧ ((List.replicate 3501 'x').take 3500).length = 3500 :=
  ⟨by rw [List.length_replicate]; norm_num,
   (C5_truncate_before_escape (List.replicate 3501 'x')
     (by rw [List.length_replicate]; norm_num)).1⟩

/-- Claim C6: the changelog variant's newline substitution replaces each
newline by the literal three characters `%0A` and touches nothing else: a
newline-free text (in particular one already containing a literal `%0A`)
passes through unchanged, a lone newline becomes `%0A`, and the
substitution acts independently on the two halves of any concatenation. -/
theorem C6_newline_to_percent_0A (t : List Char) (h : ∀ c ∈ t, c ≠ '\n') :
    pyReplaceChar t '\n' ['%', '0', 'A'] = t
      ∧ pyReplaceChar ['\n'] '\n' ['%', '0', 'A'] = ['%', '0', 'A']
      ∧ (∀ a b : List Char,
          pyReplaceChar (a ++ b) '\n' ['%', '0', 'A']
            = pyReplaceChar a '\n' ['%', '0', 'A']
              ++ pyReplaceChar b '\n' ['%', '0', 'A']) := by
  refine ⟨?_, rfl, fun a b => pyReplaceChar_append a b _ _⟩
  exact pyReplaceChar_of_not_mem _ fun hmem => h '\n' hmem rfl

/-- Witness for C6 at the concrete newline-free input `"x%0A"`, which
contains a literal `%0A` and passes through untouched. -/
theorem C6_newline_to_percent_0A_witness :
    pyReplaceChar ("x%0A".data) '\n' ['%', '0', 'A'] = "x%0A".data
      ∧ pyReplaceChar ['\n'] '\n' ['%', '0', 'A'] = ['%', '0', 'A'] :=
  ⟨(C6_newline_to_percent_0A ("x%0A".data) (by decide)).1,
   (C6_newline_to_percent_0A ("x%0A".data) (by decide)).2.1⟩

/-- Counterexample to claim C7: the slash is a reserved URL character
(RFC 3986 gen-delim), yet `urllib.parse.quote`'s default `safe`
parameter is `'/'`, so the message variant prints a slash unencoded
instead of its percent-encoded form `%2F`. -/
theorem C7_url_encoding_counterexample :
    '/' ∈ rfc3986Reserved
      ∧ message_pipeline ['/'] = ['/']
      ∧ message_pipeline ['/'] ≠ ['%', '2', 'F'] := by
  decide

/-- Claim C7 as amended: the percent-encoding pass encodes every
reserved URL character except the slash (which `quote`'s default safe
set keeps as-is), and in the printed output no raw backslash and no raw
newline survives — in particular every newline and every backslash
introduced by `escape_markdown_v2` is percent-encoded (`%0A`, `%5C`). -/
theorem C7_url_encoding_amended (s : List Char) :
    '\\' ∉ message_pipeline s
      ∧ '\n' ∉ message_pipeline s
      ∧ (∀ c ∈ rfc3986Reserved, c ≠ '/' →
          urlquote [c]
            = ['%', hexDigitUpper (c.toNat / 16), hexDigitUpper (c.toNat % 16)])
      ∧ urlquote ['/'] = ['/']
      ∧ urlquote ['\n'] = ['%', '0', 'A']
      ∧ urlquote ['\\'] = ['%', '5', 'C'] := by
  refine ⟨(urlquote_no_backslash_newline _).1,
    (urlquote_no_backslash_newline _).2, ?_, by decide, by decide, by decide⟩
  decide

/-- Counterexample to claim C8: Python's `str.replace` replaces every
occurrence, not exactly one.  When the destination content is the
placeholder written twice, both occurrences are substituted: the result
is `XX`, not `X` followed by a survived placeholder (nor a placeholder
followed by `X`). -/
theorem C8_single_replacement_counterexample :
    new_content (placeholder ++ placeholder) ['X'] = ['X', 'X']
      ∧ new_content (placeholder ++ placeholder) ['X'] ≠ 'X' :: placeholder
      ∧ new_content (placeholder ++ placeholder) ['X'] ≠ placeholder ++ ['X'] := by
  have hne : placeholder ≠ [] := by decide
  have hboth : new_content (placeholder ++ placeholder) ['X'] = ['X', 'X'] := by
    rw [new_content, strReplace_leading_occ placeholder ['X'] placeholder hne,
      strReplace_self placeholder ['X'] hne]
    rfl
  refine ⟨hboth, ?_, ?_⟩
  · rw [hboth]
    decide
  · rw [hboth]
    decide

/-- Claim C8 as amended: the sync script's substitution step performs a
literal (non-regex) replacement of every non-overlapping occurrence of
the fixed placeholder with the fetched text — a leading placeholder is
always substituted, content in which the placeholder does not occur is
written back unchanged, and in particular a doubled placeholder has both
occurrences replaced. -/
theorem C8_replaces_every_occurrence (raw t : List Char) :
    new_content (placeholder ++ t) raw = raw ++ new_content t raw
      ∧ new_content (placeholder ++ placeholder) raw = raw ++ raw
      ∧ ((∀ a b : List Char, t ≠ a ++ placeholder ++ b) →
          new_content t raw = t) := by
  have hne : placeholder ≠ [] := by decide
  refine ⟨strReplace_leading_occ placeholder raw t hne, ?_, fun hno =>
    strReplace_of_no_occurrence placeholder raw t.length t le_rfl hno⟩
  rw [new_content, strReplace_leading_occ placeholder raw placeholder hne,
    strReplace_self placeholder raw hne]

/-- Claim C9: for both escaper scripts, when the guarded body raises (the
read being the fallible step, its outcome passed as an `Except`), the
process prints nothing to standard output, prints the single line
`Error: <message>` to standard error (one newline when the message has
none) and exits with status 1; on success it prints the transformed text
and exits normally with empty standard error. -/
theorem C9_top_level_error_handling (r : Except (List Char) (List Char)) :
    (∀ e, r = Except.error e →
        changelog_main r = ⟨[], "Error: ".data ++ e ++ ['\n'], 1⟩
          ∧ message_main r = ⟨[], "Error: ".data ++ e ++ ['\n'], 1⟩
          ∧ ((∀ x ∈ e, x ≠ '\n') →
              (changelog_main r).err.count '\n' = 1))
      ∧ (∀ t, r = Except.ok t →
          changelog_main r = ⟨changelog_pipeline t ++ ['\n'], [], 0⟩
            ∧ message_main r = ⟨message_pipeline t ++ ['\n'], [], 0⟩) := by
  constructor
  · rintro e rfl
    refine ⟨rfl, rfl, fun hx => ?_⟩
    show ("Error: ".data ++ e ++ ['\n']).count '\n' = 1
    rw [List.count_append, List.count_append,
      List.count_eq_zero.mpr fun hmem => hx '\n' hmem rfl]
    decide
  · rintro t rfl
    exact ⟨rfl, rfl⟩

/-- Claim C10: `escape_markdown_v2` is a homomorphism for string
concatenation, and the escaped length is the original length plus the
number of reserved-character occurrences. -/
theorem C10_escape_concat_homomorphism (s t : List Char) :
    escape_markdown_v2 (s ++ t)
        = escape_markdown_v2 s ++ escape_markdown_v2 t
      ∧ (escape_markdown_v2 s).length
          = s.length + s.countP (fun c => decide (c ∈ special_chars)) :=
  ⟨escape_append s t, by rw [escape_eq_escapeSpec, escapeSpec_length]⟩

end ArchiveTune
